import Mathlib

/-!
Verification development for `mp3journaling.py`.

Marker offsets, durations and timestamps are modelled as exact rationals (the
source uses Python floats; every claim under scrutiny concerns values that are
exact at 0.01-second granularity, where ideal decimal arithmetic and the
source agree).  Marker text is modelled as `String`/`List Char`.  Python
exceptions are modelled with `Option`/`Except`: a `ValueError` raised by
`Pattern(c)` for `c` outside `1..5`, an `IndexError` raised by an
out-of-range list subscript, and the resolver's defensive
`ValueError("Invalid number of track markers detected")` are each represented
by an explicit error value.
-/

namespace MP3Journaling

/-- The five members of the source's `Pattern` enum, in declaration order.
Python's `Enum` auto-numbers them 1..5. -/
inductive Pattern
  | IMPORTANT_THOUGHT
  | IMPORTANT_THOUGHT_LONG
  | IMPORTANT_CONVERSATION
  | CONFIDENTIAL
  | PROJECT_IDEA
deriving DecidableEq

/-- `Pattern.value` of the Python enum member. -/
def Pattern.value : Pattern → ℕ
  | .IMPORTANT_THOUGHT => 1
  | .IMPORTANT_THOUGHT_LONG => 2
  | .IMPORTANT_CONVERSATION => 3
  | .CONFIDENTIAL => 4
  | .PROJECT_IDEA => 5

/-- The Python call `Pattern(c)`: returns the enum member of value `c`, or
raises `ValueError` (modelled as `none`) if `c` is not in `1..5`. -/
def patternOfValue : ℕ → Option Pattern
  | 1 => some .IMPORTANT_THOUGHT
  | 2 => some .IMPORTANT_THOUGHT_LONG
  | 3 => some .IMPORTANT_CONVERSATION
  | 4 => some .CONFIDENTIAL
  | 5 => some .PROJECT_IDEA
  | _ => none

/-- The source's `PatternSkips` dict: how many track marks the resolver's
cursor jumps over after each pattern. -/
def PatternSkips : Pattern → ℕ
  | .IMPORTANT_THOUGHT => 1
  | .IMPORTANT_THOUGHT_LONG => 2
  | .IMPORTANT_CONVERSATION => 4
  | .CONFIDENTIAL => 5
  | .PROJECT_IDEA => 5

/-- The source's `PatternTime` dict (lookback seconds).  The dict has keys
only for the three lookback patterns; the source never looks up the two
span patterns, so the value returned for them here (0) is never used. -/
def PatternTime : Pattern → ℚ
  | .IMPORTANT_THOUGHT => 60
  | .IMPORTANT_THOUGHT_LONG => 120
  | .PROJECT_IDEA => 300
  | .IMPORTANT_CONVERSATION => 0
  | .CONFIDENTIAL => 0

/-- The source's `TimeInterval` namedtuple `(start, end, type)`; the `end`
field is called `stop` here because `end` is a Lean keyword. -/
structure TimeInterval where
  start : ℚ
  stop : ℚ
  type : Pattern
deriving DecidableEq

/-- Outcome of the `get_windows` while loop: the window list, the
`ValueError` raised by `Pattern(c)` on an invalid count, or exhaustion of
the step budget (`fuelOut` is proved unreachable for the budget
`get_windows` supplies; see `getWindowsLoop_ne_fuelOut`). -/
inductive WindowsOut
  | windows (ws : List Pattern)
  | valueErr
  | fuelOut
deriving DecidableEq

/-- One-to-one embedding of the `while index < len(track_marks)` loop of
`get_windows`, with the loop state (`index`, `track_mark_counter`,
`total_time`, `reset`, accumulated `windows`) passed explicitly and a step
budget `fuel` to make the recursion structural.  `track_marks` holds the
marks' offsets in seconds (the values `track_mark_to_seconds` yields for the
lines of the marker file); `track_mark_interval_to_seconds` of two adjacent
marks is their difference.  `marks.getD i 0` models the Python subscript
`track_marks[i]`; every subscript the loop reaches from its initial state is
in range (when `reset` is false the cursor is at least 1). -/
def getWindowsLoop (track_marks : List ℚ) (interval : ℚ) :
    ℕ → ℕ → ℕ → ℚ → Bool → List Pattern → WindowsOut
  | 0, _, _, _, _, _ => .fuelOut
  | fuel + 1, index, track_mark_counter, total_time, reset, windows =>
    if index < track_marks.length then
      if 5 ≤ track_mark_counter then
        -- `track_mark_counter >= max(pattern.value for pattern in Pattern)`
        match patternOfValue track_mark_counter with
        | none => .valueErr
        | some p =>
          getWindowsLoop track_marks interval fuel index 0 0 true (windows ++ [p])
      else
        -- `track_mark_counter <= 4`: consume the mark at `index`; the updated
        -- `total_time` (unchanged on the first mark after a reset, otherwise
        -- increased by the gap to the previous mark) appears inline below
        if interval <
            (if reset then total_time
             else total_time + (track_marks.getD index 0 - track_marks.getD (index - 1) 0)) then
          -- boundary detected (`total_time > interval`)
          if track_mark_counter = 3 ∨ track_mark_counter = 4 then
            match patternOfValue track_mark_counter with
            | none => .valueErr
            | some p =>
              getWindowsLoop track_marks interval fuel (index + 1) 0 0 true (windows ++ [p])
          else
            -- `index -= 1`: the boundary mark starts the next run
            match patternOfValue track_mark_counter with
            | none => .valueErr
            | some p =>
              getWindowsLoop track_marks interval fuel (index + 1 - 1) 0 0 true (windows ++ [p])
        else
          getWindowsLoop track_marks interval fuel (index + 1) (track_mark_counter + 1)
            (if reset then total_time
             else total_time + (track_marks.getD index 0 - track_marks.getD (index - 1) 0))
            false windows
    else
      -- loop exit: flush a final partial run, if any
      if 0 < track_mark_counter then
        match patternOfValue track_mark_counter with
        | none => .valueErr
        | some p => .windows (windows ++ [p])
      else .windows windows

/-- The source's `get_windows(track_marks, interval=30)`, on the marks'
offsets in seconds.  `none` models the `ValueError` raised by `Pattern(c)`
on a count outside `1..5` (reachable only for a negative `interval`).  The
step budget `3 * length + 2` is sufficient (`getWindowsLoop_ne_fuelOut`). -/
def get_windows (track_marks : List ℚ) (interval : ℚ) : Option (List Pattern) :=
  match getWindowsLoop track_marks interval (3 * track_marks.length + 2) 0 0 0 true [] with
  | .windows ws => some ws
  | .valueErr => none
  | .fuelOut => none

/-- The Python exceptions `find_track_mark_patterns` can raise. -/
inductive PyErr
  | indexError
  | valueError
  | patternError
deriving DecidableEq

/-- The Python subscript `track_marks[i]` for a nonnegative index:
`IndexError` when out of range. -/
def getE (track_marks : List ℚ) (i : ℕ) : Except PyErr ℚ :=
  match track_marks.get? i with
  | some q => .ok q
  | none => .error .indexError

/-- The `for window in windows` loop of `find_track_mark_patterns`, with the
cursor `index` explicit.  Field-for-field embedding of the loop body:
`minimum` guards overlap with the previous segment; lookback patterns span
`[max(minimum, marks[index] - PatternTime[w]), marks[index]]`; a
CONVERSATION spans `[marks[index+2], marks[index+3]]`; a CONFIDENTIAL spans
`[marks[index+3], marks[index+4]]`; anything else would raise the defensive
`ValueError` (`.patternError`, unreachable since `Pattern` has exactly the
five matched members); afterwards the cursor advances by
`PatternSkips[window]`. -/
def resolveLoop (track_marks : List ℚ) : List Pattern → ℕ → Except PyErr (List TimeInterval)
  | [], _ => .ok []
  | window :: rest, index =>
    match (if 0 < index then getE track_marks (index - 1) else .ok 0 : Except PyErr ℚ) with
    | .error e => .error e
    | .ok minimum =>
      if window = .IMPORTANT_THOUGHT ∨ window = .IMPORTANT_THOUGHT_LONG ∨
          window = .PROJECT_IDEA then
        match getE track_marks index with
        | .error e => .error e
        | .ok q =>
          match resolveLoop track_marks rest (index + PatternSkips window) with
          | .error e => .error e
          | .ok tail =>
            .ok (⟨max minimum (q - PatternTime window), q, window⟩ :: tail)
      else if window = .IMPORTANT_CONVERSATION then
        match getE track_marks (index + 2) with
        | .error e => .error e
        | .ok a =>
          match getE track_marks (index + 3) with
          | .error e => .error e
          | .ok b =>
            match resolveLoop track_marks rest (index + PatternSkips window) with
            | .error e => .error e
            | .ok tail => .ok (⟨a, b, window⟩ :: tail)
      else if window = .CONFIDENTIAL then
        match getE track_marks (index + 3) with
        | .error e => .error e
        | .ok a =>
          match getE track_marks (index + 4) with
          | .error e => .error e
          | .ok b =>
            match resolveLoop track_marks rest (index + PatternSkips window) with
            | .error e => .error e
            | .ok tail => .ok (⟨a, b, window⟩ :: tail)
      else .error .patternError

/-- The source's `find_track_mark_patterns(track_marks, maxTimeInterval=30)`
on the marks' offsets in seconds: classify into windows, then resolve each
window to a `TimeInterval`.  A `ValueError` escaping `get_windows`
propagates (`.valueError`). -/
def find_track_mark_patterns (track_marks : List ℚ) (maxTimeInterval : ℚ) :
    Except PyErr (List TimeInterval) :=
  match get_windows track_marks maxTimeInterval with
  | none => .error .valueError
  | some ws => resolveLoop track_marks ws 0

/-! ### Timestamp codec -/

/-- Decimal digit character. -/
def digitChar : ℕ → Char
  | 0 => '0'
  | 1 => '1'
  | 2 => '2'
  | 3 => '3'
  | 4 => '4'
  | 5 => '5'
  | 6 => '6'
  | 7 => '7'
  | 8 => '8'
  | 9 => '9'
  | _ => '*'

/-- Decimal digits of `n`, most significant first, on a step budget (the
budget `n + 1` of `natToDigits` always suffices, see `natToDigitsGo_val`). -/
def natToDigitsGo : ℕ → ℕ → List Char
  | 0, _ => []
  | fuel + 1, n =>
    if n < 10 then [digitChar n]
    else natToDigitsGo fuel (n / 10) ++ [digitChar (n % 10)]

/-- Decimal digits of `n`, most significant first. -/
def natToDigits (n : ℕ) : List Char := natToDigitsGo (n + 1) n

/-- Python `f"{n:0w}"`: decimal digits of `n`, left-padded with zeros to
width `w` (wider numbers keep all their digits). -/
def padDigits (w n : ℕ) : List Char :=
  List.replicate (w - (natToDigits n).length) '0' ++ natToDigits n

/-- Numeric value of a decimal digit character. -/
def digitVal (c : Char) : ℕ := c.toNat - 48

/-- Value of a digit string, most significant digit first. -/
def digitsVal (cs : List Char) : ℕ := cs.foldl (fun a c => 10 * a + digitVal c) 0

/-- Model of Python `float(s)` restricted to unsigned decimal notation:
digit strings with at most one decimal point (`"123"`, `"12.5"`, `".5"`,
`"5."`).  The other spellings Python would accept (signs, exponents, `inf`,
`nan`, surrounding whitespace, underscores) never occur in marker files and
are mapped to `none`, as is every string Python rejects
(`ValueError`). -/
def pyFloat (cs : List Char) : Option ℚ :=
  if (cs.takeWhile (fun c => c != '.')).all Char.isDigit then
    match cs.dropWhile (fun c => c != '.') with
    | [] => if cs.isEmpty then none else some (digitsVal cs)
    | _ :: fp =>
      if fp.all Char.isDigit ∧ (cs.takeWhile (fun c => c != '.') ≠ [] ∨ fp ≠ []) then
        some (digitsVal (cs.takeWhile (fun c => c != '.')) + digitsVal fp / 10 ^ fp.length)
      else none
  else none

/-- The source's `track_mark_to_seconds(track_mark)`:
`float(track_mark[1:6]) * 60 + float(track_mark[7:12])`.  The Python slice
`[a:b]` is `drop a` then `take (b - a)`; a `ValueError` raised by either
`float` call is `none`.  Note the source inspects only those two character
ranges — it never checks the brackets, the colon, or anything past index
11. -/
def track_mark_to_seconds (track_mark : String) : Option ℚ :=
  match pyFloat ((track_mark.data.drop 1).take 5),
      pyFloat ((track_mark.data.drop 7).take 5) with
  | some m, some s => some (m * 60 + s)
  | _, _ => none

/-- The `%.2f` fixed-point rendering's value in centiseconds: exact decimal
rounding (the source formats a float; on every value exact at 0.01-second
granularity the two agree). -/
def fracRound2 (q : ℚ) : ℕ := (⌊q * 100 + 1 / 2⌋).toNat

/-- The source's `seconds_to_track_marker(seconds)`: `minutes =
int(seconds // 60)`, `seconds %= 60`, rendered as
`"[" + f"{minutes:05}" + ":" + f"{seconds:05.2f}" + "]"` (the seconds field
is two integer digits, a point and two fractional digits, total width 5).
Offsets are nonnegative (§3 of the design), so `minutes` is taken as a
natural number. -/
def seconds_to_track_marker (seconds : ℚ) : String :=
  String.mk ('[' :: padDigits 5 (⌊seconds / 60⌋).toNat ++ ':' ::
    padDigits 2 (fracRound2 (seconds - 60 * ((⌊seconds / 60⌋).toNat : ℕ)) / 100) ++ '.' ::
    padDigits 2 (fracRound2 (seconds - 60 * ((⌊seconds / 60⌋).toNat : ℕ)) % 100) ++ [']'])

/-! ### Marker-file reading -/

/-- Python `str.strip()`: remove leading and trailing whitespace. -/
def stripChars (cs : List Char) : List Char :=
  ((cs.dropWhile Char.isWhitespace).reverse.dropWhile Char.isWhitespace).reverse

/-- The source's `read_track_markers`: read all lines of the marker file and
append `line.strip()` for every line — including a trailing blank line,
which `strip` turns into the empty string and which is still appended.  A
file is modelled as its list of lines (the `readlines` output without the
newline characters; a trailing blank line appears as a final `""`). -/
def read_track_markers (lines : List String) : List String :=
  lines.map (fun l => String.mk (stripChars l.data))

/-! ### Marker-file concatenation (`concatenate_track_marker_files`) -/

/-- The marker source of one `(mp3, tmk)` pair: the `placeholder.tmk` path
inserted by `insert_placeholder_files`, or a real marker file given by its
lines. -/
inductive TmkSource
  | placeholder
  | real (lines : List String)

/-- The inner per-line loop of `concatenate_track_marker_files` for a
non-first real marker file: `break` at a blank line (the TX660 trailing
artifact), otherwise parse the stripped line, add the running `total_time`,
and render the shifted mark.  A `ValueError` from the parse is `none`. -/
def shiftLines (total_time : ℚ) : List String → Option (List String)
  | [] => some []
  | line :: rest =>
    if String.mk (stripChars line.data) = "" then some []
    else
      match track_mark_to_seconds (String.mk (stripChars line.data)) with
      | none => none
      | some q =>
        match shiftLines total_time rest with
        | none => none
        | some out => some (seconds_to_track_marker (q + total_time) :: out)

/-- The main loop of `concatenate_track_marker_files` over the zipped
`(mp3, tmk)` pairs, returning the lines written to the output file together
with the final `total_time`.  Each pair carries the mp3's duration in
seconds (the eyed3 `time_secs` lookup) and its marker source.  The first
real file is copied verbatim (`output_file.write(track_markers_file.read())`,
all lines including blanks); later real files are shifted line by line; a
placeholder contributes no lines but consumes the `first_file` flag; in
every case the pair's mp3 duration is added to `total_time` after the pair
is processed. -/
def concatLoop : List (ℚ × TmkSource) → ℚ → Bool → Option (List String × ℚ)
  | [], total_time, _ => some ([], total_time)
  | (dur, src) :: rest, total_time, first_file =>
    match src with
    | .placeholder => concatLoop rest (total_time + dur) false
    | .real lines =>
      if first_file then
        match concatLoop rest (total_time + dur) false with
        | none => none
        | some (out, t) => some (lines ++ out, t)
      else
        match shiftLines total_time lines with
        | none => none
        | some shifted =>
          match concatLoop rest (total_time + dur) false with
          | none => none
          | some (out, t) => some (shifted ++ out, t)

/-- The source's `concatenate_track_marker_files` on the record's zipped
`(mp3, tmk)` pair list: the lines of the merged marker file. -/
def concatenate_track_marker_files (pairs : List (ℚ × TmkSource)) :
    Option (List String) :=
  match concatLoop pairs 0 true with
  | none => none
  | some (out, _) => some out

/-! ### Segment alignment (`insert_placeholder_files`) -/

/-- One entry of the aligned marker-file list produced by
`insert_placeholder_files`: the shared `placeholder.tmk` path, or a real
marker file (identified by its creation time). -/
inductive TmkEntry
  | placeholder
  | real (tmkBirth : ℚ)
deriving DecidableEq

/-- The inner `for mp3_file_path in record.mp3_files[index:]` walk of
`insert_placeholder_files` for one marker file: an audio segment (creation
time, duration) that finished strictly before the marker file was created
(`mp3_start_time + track_length < tmk_start_time`) gets a placeholder and
the walk continues; the first segment that did not gets the real marker
file and the walk stops.  Returns the produced entries together with the
number of audio segments consumed (each iteration does `index += 1`). -/
def alignWalk (tmkBirth : ℚ) : List (ℚ × ℚ) → List TmkEntry × ℕ
  | [] => ([], 0)
  | (mp3Birth, dur) :: rest =>
    if mp3Birth + dur < tmkBirth then
      match alignWalk tmkBirth rest with
      | (es, n) => (.placeholder :: es, n + 1)
    else ([.real tmkBirth], 1)

/-- The source's `insert_placeholder_files` on the record's audio segments
(creation time, duration) and marker files (creation times), with the
shared cursor `index` into the audio list explicit (it starts at 0): the
new `tmk_files` list of the returned record. -/
def insert_placeholder_files (mp3_files : List (ℚ × ℚ)) :
    List ℚ → ℕ → List TmkEntry
  | [], _ => []
  | tmkBirth :: tmks, index =>
    match alignWalk tmkBirth (mp3_files.drop index) with
    | (es, n) => es ++ insert_placeholder_files mp3_files tmks (index + n)

/-! ### Spec-side definitions -/

/-- Modelled from the spec (§4.1, §6): the fixed-width bracketed marker
token `[MMMMM:SS.ss]` — 13 characters with brackets, colon and point at
fixed positions and digits elsewhere.  This is the spec's notion of a
well-formed token, stated independently of the source's parser so the two
can be compared (C9). -/
def wellFormedTrackMark (s : String) : Bool :=
  match s.data with
  | '[' :: a :: b :: c :: d :: e :: ':' :: f :: g :: '.' :: h :: i :: ']' :: [] =>
    a.isDigit && b.isDigit && c.isDigit && d.isDigit && e.isDigit &&
      f.isDigit && g.isDigit && h.isDigit && i.isDigit
  | _ => false

/-- The value a well-formed token denotes per the spec: the five minute
digits times 60 plus the seconds field (two integer digits and two
centisecond digits). -/
def tokenValue (s : String) : ℚ :=
  digitsVal ((s.data.drop 1).take 5) * 60 +
    (digitsVal ((s.data.drop 7).take 2) + digitsVal ((s.data.drop 10).take 2) / 100)

/-! ### Step lemmas for evaluating `getWindowsLoop` one loop iteration at a
time (conditional rewrites, so that `simp`/`norm_num` follows only the branch
that is actually taken). -/

theorem getWindowsLoop_step_exit0 (marks : List ℚ) (G : ℚ) (f : ℕ) (idx : ℕ) (t : ℚ)
    (r : Bool) (acc : List Pattern) (h : ¬ idx < marks.length) :
    getWindowsLoop marks G (f + 1) idx 0 t r acc = .windows acc := by
  rw [getWindowsLoop]
  simp only [if_neg h, if_neg (show ¬ (0:ℕ) < 0 from by omega)]

theorem getWindowsLoop_step_flush (marks : List ℚ) (G : ℚ) (f : ℕ) (idx c : ℕ) (t : ℚ)
    (r : Bool) (acc : List Pattern) (p : Pattern) (h : ¬ idx < marks.length)
    (hc : 0 < c) (hp : patternOfValue c = some p) :
    getWindowsLoop marks G (f + 1) idx c t r acc = .windows (acc ++ [p]) := by
  rw [getWindowsLoop]
  simp only [if_neg h, if_pos hc, hp]

theorem getWindowsLoop_step_advT (marks : List ℚ) (G : ℚ) (f : ℕ) (idx c : ℕ) (t : ℚ)
    (acc : List Pattern) (h : idx < marks.length) (hc : c < 5) (hG : ¬ G < t) :
    getWindowsLoop marks G (f + 1) idx c t true acc =
      getWindowsLoop marks G f (idx + 1) (c + 1) t false acc := by
  rw [getWindowsLoop]
  simp only [if_pos h, if_neg (show ¬ 5 ≤ c from by omega), eq_self_iff_true, if_true,
    if_neg hG]

theorem getWindowsLoop_step_advF (marks : List ℚ) (G : ℚ) (f : ℕ) (idx c : ℕ) (t : ℚ)
    (acc : List Pattern)
    (h : idx < marks.length) (hc : c < 5)
    (hG : ¬ G < t + (marks.getD idx 0 - marks.getD (idx - 1) 0)) :
    getWindowsLoop marks G (f + 1) idx c t false acc =
      getWindowsLoop marks G f (idx + 1) (c + 1)
        (t + (marks.getD idx 0 - marks.getD (idx - 1) 0)) false acc := by
  rw [getWindowsLoop]
  simp only [if_pos h, if_neg (show ¬ 5 ≤ c from by omega), Bool.false_eq_true, if_false,
    if_neg hG]

theorem getWindowsLoop_step_bnd34 (marks : List ℚ) (G : ℚ) (f : ℕ) (idx c : ℕ) (t : ℚ)
    (acc : List Pattern) (p : Pattern)
    (h : idx < marks.length) (hc : c = 3 ∨ c = 4) (hp : patternOfValue c = some p)
    (hG : G < t + (marks.getD idx 0 - marks.getD (idx - 1) 0)) :
    getWindowsLoop marks G (f + 1) idx c t false acc =
      getWindowsLoop marks G f (idx + 1) 0 0 true (acc ++ [p]) := by
  rw [getWindowsLoop]
  simp only [if_pos h, if_neg (show ¬ 5 ≤ c from by rcases hc with h3 | h4 <;> omega),
    Bool.false_eq_true, if_false, if_pos hG, if_pos hc, hp]

theorem getWindowsLoop_step_bndRewind (marks : List ℚ) (G : ℚ) (f : ℕ) (idx c : ℕ)
    (t : ℚ) (acc : List Pattern) (p : Pattern)
    (h : idx < marks.length) (hc3 : ¬ c = 3) (hc4 : ¬ c = 4) (hc : c < 5)
    (hp : patternOfValue c = some p)
    (hG : G < t + (marks.getD idx 0 - marks.getD (idx - 1) 0)) :
    getWindowsLoop marks G (f + 1) idx c t false acc =
      getWindowsLoop marks G f idx 0 0 true (acc ++ [p]) := by
  rw [getWindowsLoop]
  simp only [if_pos h, if_neg (show ¬ 5 ≤ c from by omega), Bool.false_eq_true, if_false,
    if_pos hG, if_neg (show ¬ (c = 3 ∨ c = 4) from by omega), hp, Nat.add_sub_cancel]

theorem getWindowsLoop_step_emit5 (marks : List ℚ) (G : ℚ) (f : ℕ) (idx : ℕ) (t : ℚ)
    (r : Bool) (acc : List Pattern) (h : idx < marks.length) :
    getWindowsLoop marks G (f + 1) idx 5 t r acc =
      getWindowsLoop marks G f idx 0 0 true (acc ++ [.PROJECT_IDEA]) := by
  rw [getWindowsLoop]
  simp only [if_pos h, if_pos (show 5 ≤ 5 from le_refl 5)]
  rfl

theorem getWindowsLoop_step_bnd3 (marks : List ℚ) (G : ℚ) (f : ℕ) (idx : ℕ) (t : ℚ)
    (acc : List Pattern) (h : idx < marks.length)
    (hG : G < t + (marks.getD idx 0 - marks.getD (idx - 1) 0)) :
    getWindowsLoop marks G (f + 1) idx 3 t false acc =
      getWindowsLoop marks G f (idx + 1) 0 0 true (acc ++ [.IMPORTANT_CONVERSATION]) :=
  getWindowsLoop_step_bnd34 marks G f idx 3 t acc _ h (Or.inl rfl) rfl hG

theorem getWindowsLoop_step_bnd4 (marks : List ℚ) (G : ℚ) (f : ℕ) (idx : ℕ) (t : ℚ)
    (acc : List Pattern) (h : idx < marks.length)
    (hG : G < t + (marks.getD idx 0 - marks.getD (idx - 1) 0)) :
    getWindowsLoop marks G (f + 1) idx 4 t false acc =
      getWindowsLoop marks G f (idx + 1) 0 0 true (acc ++ [.CONFIDENTIAL]) :=
  getWindowsLoop_step_bnd34 marks G f idx 4 t acc _ h (Or.inr rfl) rfl hG

theorem getWindowsLoop_step_rewind1 (marks : List ℚ) (G : ℚ) (f : ℕ) (idx : ℕ) (t : ℚ)
    (acc : List Pattern) (h : idx < marks.length)
    (hG : G < t + (marks.getD idx 0 - marks.getD (idx - 1) 0)) :
    getWindowsLoop marks G (f + 1) idx 1 t false acc =
      getWindowsLoop marks G f idx 0 0 true (acc ++ [.IMPORTANT_THOUGHT]) :=
  getWindowsLoop_step_bndRewind marks G f idx 1 t acc _ h (by omega) (by omega)
    (by omega) rfl hG

theorem getWindowsLoop_step_rewind2 (marks : List ℚ) (G : ℚ) (f : ℕ) (idx : ℕ) (t : ℚ)
    (acc : List Pattern) (h : idx < marks.length)
    (hG : G < t + (marks.getD idx 0 - marks.getD (idx - 1) 0)) :
    getWindowsLoop marks G (f + 1) idx 2 t false acc =
      getWindowsLoop marks G f idx 0 0 true (acc ++ [.IMPORTANT_THOUGHT_LONG]) :=
  getWindowsLoop_step_bndRewind marks G f idx 2 t acc _ h (by omega) (by omega)
    (by omega) rfl hG

theorem getWindowsLoop_step_flush1 (marks : List ℚ) (G : ℚ) (f : ℕ) (idx : ℕ) (t : ℚ)
    (r : Bool) (acc : List Pattern) (h : ¬ idx < marks.length) :
    getWindowsLoop marks G (f + 1) idx 1 t r acc =
      .windows (acc ++ [.IMPORTANT_THOUGHT]) :=
  getWindowsLoop_step_flush marks G f idx 1 t r acc _ h (by omega) rfl

theorem getWindowsLoop_step_flush2 (marks : List ℚ) (G : ℚ) (f : ℕ) (idx : ℕ) (t : ℚ)
    (r : Bool) (acc : List Pattern) (h : ¬ idx < marks.length) :
    getWindowsLoop marks G (f + 1) idx 2 t r acc =
      .windows (acc ++ [.IMPORTANT_THOUGHT_LONG]) :=
  getWindowsLoop_step_flush marks G f idx 2 t r acc _ h (by omega) rfl

theorem getWindowsLoop_step_flush3 (marks : List ℚ) (G : ℚ) (f : ℕ) (idx : ℕ) (t : ℚ)
    (r : Bool) (acc : List Pattern) (h : ¬ idx < marks.length) :
    getWindowsLoop marks G (f + 1) idx 3 t r acc =
      .windows (acc ++ [.IMPORTANT_CONVERSATION]) :=
  getWindowsLoop_step_flush marks G f idx 3 t r acc _ h (by omega) rfl

theorem getWindowsLoop_step_flush4 (marks : List ℚ) (G : ℚ) (f : ℕ) (idx : ℕ) (t : ℚ)
    (r : Bool) (acc : List Pattern) (h : ¬ idx < marks.length) :
    getWindowsLoop marks G (f + 1) idx 4 t r acc =
      .windows (acc ++ [.CONFIDENTIAL]) :=
  getWindowsLoop_step_flush marks G f idx 4 t r acc _ h (by omega) rfl

theorem patternOfValue_bounds (c : ℕ) (p : Pattern) (h : patternOfValue c = some p) :
    1 ≤ c ∧ c ≤ 5 := by
  rcases c with _ | _ | _ | _ | _ | _ | n
  · exact absurd h (by simp [patternOfValue])
  · omega
  · omega
  · omega
  · omega
  · omega
  · exact absurd h (by simp [patternOfValue])

theorem patternOfValue_isSome (c : ℕ) (h1 : 1 ≤ c) (h5 : c ≤ 5) :
    ∃ p, patternOfValue c = some p := by
  interval_cases c
  · exact ⟨_, rfl⟩
  · exact ⟨_, rfl⟩
  · exact ⟨_, rfl⟩
  · exact ⟨_, rfl⟩
  · exact ⟨_, rfl⟩

/-- Termination of the `get_windows` loop: with a step budget exceeding
`3 * (marks remaining) + 2 * counter`, the loop finishes before the budget
runs out.  (Although the cursor moves back one step at a rewinding boundary,
the run counter resets to zero there, so the quantity
`3 * (length - index) + 2 * counter` strictly decreases at every
iteration.) -/
theorem getWindowsLoop_ne_fuelOut (marks : List ℚ) (G : ℚ) :
    ∀ (fuel idx c : ℕ) (t : ℚ) (r : Bool) (acc : List Pattern),
      3 * (marks.length - idx) + 2 * c < fuel →
      getWindowsLoop marks G fuel idx c t r acc ≠ .fuelOut := by
  intro fuel
  induction fuel with
  | zero => intro idx c t r acc h; omega
  | succ f ih =>
    intro idx c t r acc h
    rw [getWindowsLoop]
    by_cases hidx : idx < marks.length
    · rw [if_pos hidx]
      by_cases h5 : 5 ≤ c
      · rw [if_pos h5]
        rcases hp : patternOfValue c with _ | p
        · simp only [hp]
          exact fun hcon => WindowsOut.noConfusion hcon
        · simp only [hp]
          exact ih idx 0 0 true (acc ++ [p]) (by omega)
      · rw [if_neg h5]
        by_cases hb : G < (if r then t else t + (marks.getD idx 0 - marks.getD (idx - 1) 0))
        · rw [if_pos hb]
          by_cases h34 : c = 3 ∨ c = 4
          · rw [if_pos h34]
            rcases hp : patternOfValue c with _ | p
            · simp only [hp]
              exact fun hcon => WindowsOut.noConfusion hcon
            · simp only [hp]
              exact ih (idx + 1) 0 0 true (acc ++ [p]) (by omega)
          · rw [if_neg h34]
            rcases hp : patternOfValue c with _ | p
            · simp only [hp]
              exact fun hcon => WindowsOut.noConfusion hcon
            · simp only [hp]
              have hb2 := patternOfValue_bounds c p hp
              exact ih (idx + 1 - 1) 0 0 true (acc ++ [p]) (by omega)
        · rw [if_neg hb]
          exact ih (idx + 1) (c + 1) _ false acc (by omega)
    · rw [if_neg hidx]
      by_cases hc0 : 0 < c
      · rw [if_pos hc0]
        rcases hp : patternOfValue c with _ | p
        · simp only [hp]
          exact fun hcon => WindowsOut.noConfusion hcon
        · simp only [hp]
          exact fun hcon => WindowsOut.noConfusion hcon
      · rw [if_neg hc0]
        exact fun hcon => WindowsOut.noConfusion hcon

/-- The `ValueError` raised by `Pattern(c)` inside `get_windows` is
unreachable for a nonnegative gap threshold: whenever the counter is zero the
accumulated time is zero and the reset flag is set, so a boundary can only
fire with a counter in `1..4`, and the counter never exceeds 5. -/
theorem getWindowsLoop_ne_valueErr (marks : List ℚ) (G : ℚ) (hG : 0 ≤ G) :
    ∀ (fuel idx c : ℕ) (t : ℚ) (r : Bool) (acc : List Pattern),
      (c = 0 → t = 0 ∧ r = true) → c ≤ 5 →
      getWindowsLoop marks G fuel idx c t r acc ≠ .valueErr := by
  intro fuel
  induction fuel with
  | zero => intro idx c t r acc h0 h5 hcon; exact WindowsOut.noConfusion hcon
  | succ f ih =>
    intro idx c t r acc h0 h5
    rw [getWindowsLoop]
    by_cases hidx : idx < marks.length
    · rw [if_pos hidx]
      by_cases hc5 : 5 ≤ c
      · rw [if_pos hc5]
        rcases patternOfValue_isSome c (by omega) h5 with ⟨p, hp⟩
        simp only [hp]
        exact ih idx 0 0 true (acc ++ [p]) (fun _ => ⟨rfl, rfl⟩) (by omega)
      · rw [if_neg hc5]
        by_cases hb : G < (if r then t else t + (marks.getD idx 0 - marks.getD (idx - 1) 0))
        · rw [if_pos hb]
          have hc1 : 1 ≤ c := by
            by_contra hne
            have hc0 : c = 0 := by omega
            rcases h0 hc0 with ⟨ht, hr⟩
            subst ht
            subst hr
            rw [if_pos rfl] at hb
            exact absurd hb (not_lt.mpr hG)
          rcases patternOfValue_isSome c hc1 (by omega) with ⟨p, hp⟩
          by_cases h34 : c = 3 ∨ c = 4
          · rw [if_pos h34]
            simp only [hp]
            exact ih (idx + 1) 0 0 true (acc ++ [p]) (fun _ => ⟨rfl, rfl⟩) (by omega)
          · rw [if_neg h34]
            simp only [hp]
            exact ih (idx + 1 - 1) 0 0 true (acc ++ [p]) (fun _ => ⟨rfl, rfl⟩) (by omega)
        · rw [if_neg hb]
          exact ih (idx + 1) (c + 1) _ false acc (by omega) (by omega)
    · rw [if_neg hidx]
      by_cases hc0 : 0 < c
      · rw [if_pos hc0]
        rcases patternOfValue_isSome c (by omega) h5 with ⟨p, hp⟩
        simp only [hp]
        exact fun hcon => WindowsOut.noConfusion hcon
      · rw [if_neg hc0]
        exact fun hcon => WindowsOut.noConfusion hcon

/-- For a nonnegative gap threshold, `get_windows` always returns a window
list (the internal `ValueError` and the step budget are both unreachable). -/
theorem get_windows_eq_some (marks : List ℚ) (G : ℚ) (hG : 0 ≤ G) :
    ∃ ws, get_windows marks G = some ws := by
  unfold get_windows
  have h1 := getWindowsLoop_ne_fuelOut marks G (3 * marks.length + 2) 0 0 0 true []
    (by omega)
  have h2 := getWindowsLoop_ne_valueErr marks G hG (3 * marks.length + 2) 0 0 0 true []
    (fun _ => ⟨rfl, rfl⟩) (by omega)
  rcases hout : getWindowsLoop marks G (3 * marks.length + 2) 0 0 0 true [] with ws | _ | _
  · exact ⟨ws, rfl⟩
  · exact absurd hout h2
  · exact absurd hout h1

theorem getE_error (marks : List ℚ) (i : ℕ) (e : PyErr) (h : getE marks i = .error e) :
    e = .indexError := by
  unfold getE at h
  rcases hq : marks.get? i with _ | q
  · rw [hq] at h
    cases h
    rfl
  · rw [hq] at h
    cases h

theorem getE_ok (marks : List ℚ) (i : ℕ) (q : ℚ) (h : getE marks i = .ok q) :
    marks.get? i = some q := by
  unfold getE at h
  rcases hq : marks.get? i with _ | q2
  · rw [hq] at h
    cases h
  · rw [hq] at h
    cases h
    rfl

theorem minExpr_error (marks : List ℚ) (idx : ℕ) (e : PyErr)
    (h : (if 0 < idx then getE marks (idx - 1) else (.ok 0 : Except PyErr ℚ)) = .error e) :
    e = .indexError := by
  by_cases hi : 0 < idx
  · rw [if_pos hi] at h
    exact getE_error _ _ _ h
  · rw [if_neg hi] at h
    cases h

/-- Unfolding of `resolveLoop` at a lookback window (dispatch taken on the
first branch of the if/elif chain). -/
theorem resolveLoop_lookback (marks : List ℚ) (rest : List Pattern) (idx : ℕ)
    (w : Pattern) (hw : w = .IMPORTANT_THOUGHT ∨ w = .IMPORTANT_THOUGHT_LONG ∨
      w = .PROJECT_IDEA) :
    resolveLoop marks (w :: rest) idx =
      match (if 0 < idx then getE marks (idx - 1) else (.ok 0 : Except PyErr ℚ)) with
      | .error e => .error e
      | .ok minimum =>
        match getE marks idx with
        | .error e => .error e
        | .ok q =>
          match resolveLoop marks rest (idx + PatternSkips w) with
          | .error e => .error e
          | .ok tail => .ok (⟨max minimum (q - PatternTime w), q, w⟩ :: tail) := by
  rcases hw with h | h | h
  all_goals subst h
  all_goals rfl

/-- Unfolding of `resolveLoop` at a CONVERSATION window. -/
theorem resolveLoop_conversation (marks : List ℚ) (rest : List Pattern) (idx : ℕ) :
    resolveLoop marks (.IMPORTANT_CONVERSATION :: rest) idx =
      match (if 0 < idx then getE marks (idx - 1) else (.ok 0 : Except PyErr ℚ)) with
      | .error e => .error e
      | .ok _ =>
        match getE marks (idx + 2) with
        | .error e => .error e
        | .ok a =>
          match getE marks (idx + 3) with
          | .error e => .error e
          | .ok b =>
            match resolveLoop marks rest (idx + 4) with
            | .error e => .error e
            | .ok tail => .ok (⟨a, b, .IMPORTANT_CONVERSATION⟩ :: tail) := rfl

/-- Unfolding of `resolveLoop` at a CONFIDENTIAL window. -/
theorem resolveLoop_confidential (marks : List ℚ) (rest : List Pattern) (idx : ℕ) :
    resolveLoop marks (.CONFIDENTIAL :: rest) idx =
      match (if 0 < idx then getE marks (idx - 1) else (.ok 0 : Except PyErr ℚ)) with
      | .error e => .error e
      | .ok _ =>
        match getE marks (idx + 3) with
        | .error e => .error e
        | .ok a =>
          match getE marks (idx + 4) with
          | .error e => .error e
          | .ok b =>
            match resolveLoop marks rest (idx + 5) with
            | .error e => .error e
            | .ok tail => .ok (⟨a, b, .CONFIDENTIAL⟩ :: tail) := rfl

/-- The resolver either succeeds or raises `IndexError` on a mark subscript:
its defensive else-branch (`PatternError`) is dead code, since the five-way
dispatch on the window's pattern is exhaustive, and the only other statements
that can raise are the list subscripts. -/
theorem resolveLoop_ok_or_indexError (marks : List ℚ) :
    ∀ (ws : List Pattern) (idx : ℕ),
      (∃ l, resolveLoop marks ws idx = .ok l) ∨
        resolveLoop marks ws idx = .error .indexError := by
  intro ws
  induction ws with
  | nil => intro idx; exact Or.inl ⟨[], rfl⟩
  | cons w rest ih =>
    intro idx
    by_cases hw : w = .IMPORTANT_THOUGHT ∨ w = .IMPORTANT_THOUGHT_LONG ∨ w = .PROJECT_IDEA
    · rw [resolveLoop_lookback marks rest idx w hw]
      cases hmin : (if 0 < idx then getE marks (idx - 1) else (.ok 0 : Except PyErr ℚ)) with
      | error e =>
        rw [minExpr_error marks idx e hmin]
        exact Or.inr rfl
      | ok minimum =>
        cases hq : getE marks idx with
        | error e =>
          rw [getE_error _ _ _ hq]
          exact Or.inr rfl
        | ok q =>
          rcases ih (idx + PatternSkips w) with ⟨l, hl⟩ | hl
          · rw [hl]
            exact Or.inl ⟨_, rfl⟩
          · rw [hl]
            exact Or.inr rfl
    · have hw2 : w = .IMPORTANT_CONVERSATION ∨ w = .CONFIDENTIAL := by
        cases w
        · exact absurd (Or.inl rfl) hw
        · exact absurd (Or.inr (Or.inl rfl)) hw
        · exact Or.inl rfl
        · exact Or.inr rfl
        · exact absurd (Or.inr (Or.inr rfl)) hw
      rcases hw2 with h | h
      · subst h
        rw [resolveLoop_conversation marks rest idx]
        cases hmin : (if 0 < idx then getE marks (idx - 1) else (.ok 0 : Except PyErr ℚ)) with
        | error e =>
          rw [minExpr_error marks idx e hmin]
          exact Or.inr rfl
        | ok minimum =>
          cases ha : getE marks (idx + 2) with
          | error e =>
            rw [getE_error _ _ _ ha]
            exact Or.inr rfl
          | ok a =>
            cases hb : getE marks (idx + 3) with
            | error e =>
              rw [getE_error _ _ _ hb]
              exact Or.inr rfl
            | ok b =>
              rcases ih (idx + 4) with ⟨l, hl⟩ | hl
              · rw [hl]
                exact Or.inl ⟨_, rfl⟩
              · rw [hl]
                exact Or.inr rfl
      · subst h
        rw [resolveLoop_confidential marks rest idx]
        cases hmin : (if 0 < idx then getE marks (idx - 1) else (.ok 0 : Except PyErr ℚ)) with
        | error e =>
          rw [minExpr_error marks idx e hmin]
          exact Or.inr rfl
        | ok minimum =>
          cases ha : getE marks (idx + 3) with
          | error e =>
            rw [getE_error _ _ _ ha]
            exact Or.inr rfl
          | ok a =>
            cases hb : getE marks (idx + 4) with
            | error e =>
              rw [getE_error _ _ _ hb]
              exact Or.inr rfl
            | ok b =>
              rcases ih (idx + 5) with ⟨l, hl⟩ | hl
              · rw [hl]
                exact Or.inl ⟨_, rfl⟩
              · rw [hl]
                exact Or.inr rfl

theorem PatternSkips_pos (w : Pattern) : 1 ≤ PatternSkips w := by
  cases w
  all_goals decide

theorem get?_mono (marks : List ℚ) (hs : marks.Pairwise (· < ·)) (i j : ℕ) (x y : ℚ)
    (hij : i ≤ j) (hx : marks.get? i = some x) (hy : marks.get? j = some y) : x ≤ y := by
  rcases Nat.eq_or_lt_of_le hij with he | hlt
  · subst he
    rw [hx] at hy
    exact le_of_eq (Option.some.inj hy)
  · rcases List.get?_eq_some.mp hx with ⟨hi, hgx⟩
    rcases List.get?_eq_some.mp hy with ⟨hj, hgy⟩
    rw [← hgx, ← hgy]
    exact le_of_lt (List.pairwise_iff_get.mp hs ⟨i, hi⟩ ⟨j, hj⟩ hlt)

/-- When the resolver succeeds on a nonempty window list at a positive
cursor, the mark just before the cursor exists (the `minimum` lookup
succeeded). -/
theorem resolveLoop_cons_min_ok (marks : List ℚ) (w2 : Pattern) (rest2 : List Pattern)
    (j : ℕ) (l2 : List TimeInterval)
    (h : resolveLoop marks (w2 :: rest2) (j + 1) = .ok l2) :
    ∃ m, marks.get? j = some m := by
  rw [resolveLoop, if_pos (Nat.succ_pos j), Nat.add_sub_cancel] at h
  cases hmin : getE marks j with
  | error e =>
    rw [hmin] at h
    simp at h
  | ok m => exact ⟨m, getE_ok _ _ _ hmin⟩

/-- Key inductive invariant of the resolver: on a strictly increasing
marker sequence a successful resolution yields intervals in which each start
is at least the previous interval's end; moreover the first produced
interval's start is at least the mark preceding the cursor (the `minimum`
clamp, for lookback windows, and plain monotonicity for span windows). -/
theorem resolveLoop_no_overlap (marks : List ℚ) (hs : marks.Pairwise (· < ·)) :
    ∀ (ws : List Pattern) (idx : ℕ) (l : List TimeInterval),
      resolveLoop marks ws idx = .ok l →
      l.Chain' (fun a b => a.stop ≤ b.start) ∧
      ∀ hd tl, l = hd :: tl → ∀ j m, idx = j + 1 → marks.get? j = some m →
        m ≤ hd.start := by
  intro ws
  induction ws with
  | nil =>
    intro idx l h
    rw [resolveLoop] at h
    cases h
    exact ⟨List.chain'_nil, fun hd tl heq => by cases heq⟩
  | cons w rest ih =>
    intro idx l hres
    by_cases hw : w = .IMPORTANT_THOUGHT ∨ w = .IMPORTANT_THOUGHT_LONG ∨ w = .PROJECT_IDEA
    · rw [resolveLoop_lookback marks rest idx w hw] at hres
      cases hmin : (if 0 < idx then getE marks (idx - 1) else (.ok 0 : Except PyErr ℚ)) with
      | error e => simp [hmin] at hres
      | ok minimum =>
        rw [hmin] at hres
        cases hq : getE marks idx with
        | error e => simp [hq] at hres
        | ok q =>
          rw [hq] at hres
          cases hrest : resolveLoop marks rest (idx + PatternSkips w) with
          | error e => simp [hrest] at hres
          | ok tail =>
            rw [hrest] at hres
            cases hres
            obtain ⟨ihChain, ihHead⟩ := ih (idx + PatternSkips w) tail hrest
            have hskip := PatternSkips_pos w
            constructor
            · refine List.chain'_cons'.mpr ⟨?_, ihChain⟩
              intro b hb
              cases tail with
              | nil => simp at hb
              | cons hd2 t2 =>
                simp only [List.head?_cons, Option.mem_def, Option.some.injEq] at hb
                subst hb
                cases rest with
                | nil => simp [resolveLoop] at hrest
                | cons w2 rest2 =>
                  have hshift : idx + PatternSkips w = (idx + PatternSkips w - 1) + 1 := by
                    omega
                  rw [hshift] at hrest
                  obtain ⟨m, hm⟩ := resolveLoop_cons_min_ok marks w2 rest2 _ _ hrest
                  have hbd := ihHead hd2 t2 rfl (idx + PatternSkips w - 1) m hshift hm
                  have hq2 : marks.get? idx = some q := getE_ok _ _ _ hq
                  have hqm : q ≤ m :=
                    get?_mono marks hs idx (idx + PatternSkips w - 1) q m (by omega) hq2 hm
                  exact le_trans hqm hbd
            · intro hd tl heq j m hij hjm
              cases heq
              have hmin2 := hmin
              rw [if_pos (show 0 < idx from by omega)] at hmin2
              have hj : idx - 1 = j := by omega
              rw [hj] at hmin2
              have := getE_ok _ _ _ hmin2
              rw [this] at hjm
              cases hjm
              exact le_max_left _ _
    · have hw2 : w = .IMPORTANT_CONVERSATION ∨ w = .CONFIDENTIAL := by
        cases w
        · exact absurd (Or.inl rfl) hw
        · exact absurd (Or.inr (Or.inl rfl)) hw
        · exact Or.inl rfl
        · exact Or.inr rfl
        · exact absurd (Or.inr (Or.inr rfl)) hw
      rcases hw2 with hwc | hwc
      all_goals subst hwc
      · rw [resolveLoop_conversation marks rest idx] at hres
        cases hmin : (if 0 < idx then getE marks (idx - 1) else (.ok 0 : Except PyErr ℚ)) with
        | error e => simp [hmin] at hres
        | ok minimum =>
          rw [hmin] at hres
          cases ha : getE marks (idx + 2) with
          | error e => simp [ha] at hres
          | ok a =>
            rw [ha] at hres
            cases hb : getE marks (idx + 3) with
            | error e => simp [hb] at hres
            | ok b =>
              rw [hb] at hres
              cases hrest : resolveLoop marks rest (idx + 4) with
              | error e => simp [hrest] at hres
              | ok tail =>
                rw [hrest] at hres
                cases hres
                obtain ⟨ihChain, ihHead⟩ := ih (idx + 4) tail hrest
                constructor
                · refine List.chain'_cons'.mpr ⟨?_, ihChain⟩
                  intro bb hbb
                  cases tail with
                  | nil => simp at hbb
                  | cons hd2 t2 =>
                    simp only [List.head?_cons, Option.mem_def, Option.some.injEq] at hbb
                    subst hbb
                    cases rest with
                    | nil => simp [resolveLoop] at hrest
                    | cons w2 rest2 =>
                      have hshift : idx + 4 = (idx + 3) + 1 := by omega
                      rw [hshift] at hrest
                      obtain ⟨m, hm⟩ := resolveLoop_cons_min_ok marks w2 rest2 _ _ hrest
                      have hbd := ihHead hd2 t2 rfl (idx + 3) m hshift hm
                      have hb2 : marks.get? (idx + 3) = some b := getE_ok _ _ _ hb
                      rw [hb2] at hm
                      cases hm
                      exact hbd
                · intro hd tl heq j m hij hjm
                  cases heq
                  have ha2 : marks.get? (idx + 2) = some a := getE_ok _ _ _ ha
                  exact get?_mono marks hs j (idx + 2) m a (by omega) hjm ha2
      · rw [resolveLoop_confidential marks rest idx] at hres
        cases hmin : (if 0 < idx then getE marks (idx - 1) else (.ok 0 : Except PyErr ℚ)) with
        | error e => simp [hmin] at hres
        | ok minimum =>
          rw [hmin] at hres
          cases ha : getE marks (idx + 3) with
          | error e => simp [ha] at hres
          | ok a =>
            rw [ha] at hres
            cases hb : getE marks (idx + 4) with
            | error e => simp [hb] at hres
            | ok b =>
              rw [hb] at hres
              cases hrest : resolveLoop marks rest (idx + 5) with
              | error e => simp [hrest] at hres
              | ok tail =>
                rw [hrest] at hres
                cases hres
                obtain ⟨ihChain, ihHead⟩ := ih (idx + 5) tail hrest
                constructor
                · refine List.chain'_cons'.mpr ⟨?_, ihChain⟩
                  intro bb hbb
                  cases tail with
                  | nil => simp at hbb
                  | cons hd2 t2 =>
                    simp only [List.head?_cons, Option.mem_def, Option.some.injEq] at hbb
                    subst hbb
                    cases rest with
                    | nil => simp [resolveLoop] at hrest
                    | cons w2 rest2 =>
                      have hshift : idx + 5 = (idx + 4) + 1 := by omega
                      rw [hshift] at hrest
                      obtain ⟨m, hm⟩ := resolveLoop_cons_min_ok marks w2 rest2 _ _ hrest
                      have hbd := ihHead hd2 t2 rfl (idx + 4) m hshift hm
                      have hb2 : marks.get? (idx + 4) = some b := getE_ok _ _ _ hb
                      rw [hb2] at hm
                      cases hm
                      exact hbd
                · intro hd tl heq j m hij hjm
                  cases heq
                  have ha2 : marks.get? (idx + 3) = some a := getE_ok _ _ _ ha
                  exact get?_mono marks hs j (idx + 3) m a (by omega) hjm ha2

/-! ### Codec lemmas -/

theorem digitVal_digitChar (d : ℕ) (h : d < 10) : digitVal (digitChar d) = d := by
  interval_cases d
  all_goals rfl

theorem isDigit_digitChar (d : ℕ) (h : d < 10) : (digitChar d).isDigit = true := by
  interval_cases d
  all_goals rfl

theorem digitsVal_concat (xs : List Char) (c : Char) :
    digitsVal (xs ++ [c]) = 10 * digitsVal xs + digitVal c := by
  unfold digitsVal
  rw [List.foldl_append]
  rfl

theorem natToDigitsGo_val :
    ∀ (fuel n : ℕ), n < fuel →
      digitsVal (natToDigitsGo fuel n) = n ∧
      (natToDigitsGo fuel n).all Char.isDigit = true ∧
      natToDigitsGo fuel n ≠ [] := by
  intro fuel
  induction fuel with
  | zero => intro n h; omega
  | succ f ih =>
    intro n h
    rw [natToDigitsGo]
    by_cases h10 : n < 10
    · rw [if_pos h10]
      refine ⟨?_, ?_, by simp⟩
      · show 10 * 0 + digitVal (digitChar n) = n
        rw [digitVal_digitChar n h10]
        omega
      · simp [isDigit_digitChar n h10]
    · rw [if_neg h10]
      have hdiv : n / 10 < f := by
        have := Nat.div_lt_self (show 0 < n by omega) (show 1 < 10 by omega)
        omega
      obtain ⟨hv, hd, hne⟩ := ih (n / 10) hdiv
      refine ⟨?_, ?_, by simp⟩
      · rw [digitsVal_concat, hv, digitVal_digitChar _ (Nat.mod_lt n (by omega))]
        omega
      · simp only [List.all_append, hd, Bool.true_and, List.all_cons, List.all_nil,
          Bool.and_true]
        exact isDigit_digitChar _ (Nat.mod_lt n (by omega))

theorem natToDigitsGo_length :
    ∀ (fuel n w : ℕ), n < fuel → 0 < w → n < 10 ^ w →
      (natToDigitsGo fuel n).length ≤ w := by
  intro fuel
  induction fuel with
  | zero => intro n w h; omega
  | succ f ih =>
    intro n w h hw hpow
    rw [natToDigitsGo]
    by_cases h10 : n < 10
    · rw [if_pos h10]
      simpa using hw
    · rw [if_neg h10]
      have hw2 : 2 ≤ w := by
        by_contra hlt
        have hw1 : w = 1 := by omega
        rw [hw1, pow_one] at hpow
        omega
      have hdiv : n / 10 < f := by
        have := Nat.div_lt_self (show 0 < n by omega) (show 1 < 10 by omega)
        omega
      have hpow2 : n / 10 < 10 ^ (w - 1) := by
        rw [Nat.div_lt_iff_lt_mul (show 0 < 10 by omega)]
        calc n < 10 ^ w := hpow
        _ = 10 ^ (w - 1) * 10 := by
          rw [← pow_succ]
          congr 1
          omega
      have hlen := ih (n / 10) (w - 1) hdiv (by omega) hpow2
      simp only [List.length_append, List.length_cons, List.length_nil]
      omega

theorem digitsVal_natToDigits (n : ℕ) : digitsVal (natToDigits n) = n :=
  (natToDigitsGo_val (n + 1) n (Nat.lt_succ_self n)).1

theorem digitsVal_replicate_zero (k : ℕ) (ds : List Char) :
    digitsVal (List.replicate k '0' ++ ds) = digitsVal ds := by
  induction k with
  | zero => simp
  | succ k ih =>
    rw [List.replicate_succ, List.cons_append]
    unfold digitsVal at ih ⊢
    rw [List.foldl_cons]
    rw [show (10 * 0 + digitVal '0' : ℕ) = 0 from rfl]
    exact ih

theorem digitsVal_padDigits (w n : ℕ) : digitsVal (padDigits w n) = n := by
  unfold padDigits
  rw [digitsVal_replicate_zero]
  exact digitsVal_natToDigits n

theorem padDigits_length (w n : ℕ) (hw : 0 < w) (hpow : n < 10 ^ w) :
    (padDigits w n).length = w := by
  unfold padDigits
  have hlen := natToDigitsGo_length (n + 1) n w (Nat.lt_succ_self n) hw hpow
  simp only [List.length_append, List.length_replicate]
  unfold natToDigits at *
  omega

theorem padDigits_all (w n : ℕ) : (padDigits w n).all Char.isDigit = true := by
  unfold padDigits
  rw [List.all_append, Bool.and_eq_true]
  constructor
  · rw [List.all_eq_true]
    intro c hc
    rw [List.eq_of_mem_replicate hc]
    rfl
  · exact (natToDigitsGo_val (n + 1) n (Nat.lt_succ_self n)).2.1

theorem padDigits_ne_nil (w n : ℕ) : padDigits w n ≠ [] := by
  unfold padDigits
  intro hcon
  rcases List.append_eq_nil.mp hcon with ⟨_, h2⟩
  exact (natToDigitsGo_val (n + 1) n (Nat.lt_succ_self n)).2.2 h2

theorem isDigit_bne_dot (c : Char) (h : c.isDigit = true) : (c != '.') = true := by
  rcases eq_or_ne c '.' with he | hne
  · subst he
    exact absurd h (by decide)
  · simp [bne_iff_ne, hne]

theorem takeWhile_all_digits (cs : List Char) (h : cs.all Char.isDigit = true) :
    cs.takeWhile (fun c => c != '.') = cs := by
  induction cs with
  | nil => rfl
  | cons c rest ih =>
    rw [List.all_cons, Bool.and_eq_true] at h
    rw [List.takeWhile_cons, if_pos (isDigit_bne_dot c h.1), ih h.2]

theorem dropWhile_all_digits (cs : List Char) (h : cs.all Char.isDigit = true) :
    cs.dropWhile (fun c => c != '.') = [] := by
  induction cs with
  | nil => rfl
  | cons c rest ih =>
    rw [List.all_cons, Bool.and_eq_true] at h
    rw [List.dropWhile_cons, if_pos (isDigit_bne_dot c h.1)]
    exact ih h.2

theorem takeWhile_digits_dot (ip fp : List Char) (h : ip.all Char.isDigit = true) :
    (ip ++ '.' :: fp).takeWhile (fun c => c != '.') = ip := by
  induction ip with
  | nil =>
    rw [List.nil_append, List.takeWhile_cons]
    rw [if_neg (by decide)]
  | cons c rest ih =>
    rw [List.all_cons, Bool.and_eq_true] at h
    rw [List.cons_append, List.takeWhile_cons, if_pos (isDigit_bne_dot c h.1), ih h.2]

theorem dropWhile_digits_dot (ip fp : List Char) (h : ip.all Char.isDigit = true) :
    (ip ++ '.' :: fp).dropWhile (fun c => c != '.') = '.' :: fp := by
  induction ip with
  | nil =>
    rw [List.nil_append, List.dropWhile_cons]
    rw [if_neg (by decide)]
  | cons c rest ih =>
    rw [List.all_cons, Bool.and_eq_true] at h
    rw [List.cons_append, List.dropWhile_cons, if_pos (isDigit_bne_dot c h.1)]
    exact ih h.2

/-- Python `float` on a nonempty unsigned digit string returns its decimal
value. -/
theorem pyFloat_digits (cs : List Char) (hd : cs.all Char.isDigit = true)
    (hne : cs ≠ []) : pyFloat cs = some (digitsVal cs) := by
  unfold pyFloat
  rw [takeWhile_all_digits cs hd, dropWhile_all_digits cs hd, if_pos hd]
  cases cs with
  | nil => exact absurd rfl hne
  | cons c rest => rfl

/-- Python `float` on `digits.digits` (nonempty integer part) returns
integer part plus fractional part scaled by its width. -/
theorem pyFloat_frac (ip fp : List Char) (hip : ip.all Char.isDigit = true)
    (hfp : fp.all Char.isDigit = true) (hne : ip ≠ []) :
    pyFloat (ip ++ '.' :: fp) =
      some ((digitsVal ip : ℚ) + (digitsVal fp : ℚ) / 10 ^ fp.length) := by
  unfold pyFloat
  rw [takeWhile_digits_dot ip fp hip, dropWhile_digits_dot ip fp hip, if_pos hip]
  show (if fp.all Char.isDigit = true ∧ (ip ≠ [] ∨ fp ≠ []) then
      some ((digitsVal ip : ℚ) + (digitsVal fp : ℚ) / 10 ^ fp.length) else none) =
    some ((digitsVal ip : ℚ) + (digitsVal fp : ℚ) / 10 ^ fp.length)
  exact if_pos ⟨hfp, Or.inl hne⟩

theorem data_String_mk (l : List Char) : (String.mk l).data = l := rfl

/-- The minutes computed by `seconds_to_track_marker` on `k` centiseconds. -/
theorem minutes_of_centi (k : ℕ) :
    (⌊((k : ℚ) / 100) / 60⌋).toNat = k / 6000 := by
  have h1 : ((k : ℚ) / 100) / 60 = (k : ℚ) / 6000 := by
    rw [div_div]
    norm_num
  rw [h1]
  have h2 : ⌊(k : ℚ) / 6000⌋ = ((k / 6000 : ℕ) : ℤ) := by
    rw [Int.floor_eq_iff]
    push_cast
    constructor
    · rw [le_div_iff₀ (show (0 : ℚ) < 6000 by norm_num)]
      have hnat : (k / 6000) * 6000 ≤ k := Nat.div_mul_le_self k 6000
      exact_mod_cast hnat
    · rw [div_lt_iff₀ (show (0 : ℚ) < 6000 by norm_num)]
      have hnat : k < (k / 6000 + 1) * 6000 := by omega
      exact_mod_cast hnat
  rw [h2]
  exact Int.toNat_natCast _

/-- The remainder computed by `seconds_to_track_marker` on `k`
centiseconds. -/
theorem rem_of_centi (k : ℕ) :
    (k : ℚ) / 100 - 60 * ((k / 6000 : ℕ) : ℚ) = ((k % 6000 : ℕ) : ℚ) / 100 := by
  have hdm : 6000 * (k / 6000) + k % 6000 = k := Nat.div_add_mod k 6000
  have hq : 6000 * ((k / 6000 : ℕ) : ℚ) + ((k % 6000 : ℕ) : ℚ) = (k : ℚ) := by
    exact_mod_cast hdm
  field_simp
  linarith

/-- The `%.2f` rounding is exact on centisecond-exact remainders. -/
theorem fracRound2_exact (r : ℕ) : fracRound2 ((r : ℚ) / 100) = r := by
  unfold fracRound2
  have h1 : ((r : ℚ) / 100) * 100 + 1 / 2 = (r : ℚ) + 1 / 2 := by
    rw [div_mul_cancel₀ _ (show (100 : ℚ) ≠ 0 by norm_num)]
  rw [h1]
  have h2 : ⌊(r : ℚ) + 1 / 2⌋ = (r : ℤ) := by
    rw [Int.floor_eq_iff]
    push_cast
    constructor
    · linarith
    · linarith
  rw [h2]
  exact Int.toNat_natCast _

theorem exists_two (A : List Char) (h : A.length = 2) :
    ∃ a b, A = [a, b] := by
  rcases A with _ | ⟨a, A⟩
  · simp at h
  rcases A with _ | ⟨b, A⟩
  · simp at h
  rcases A with _ | ⟨c, A⟩
  · exact ⟨a, b, rfl⟩
  · simp at h

theorem exists_five (A : List Char) (h : A.length = 5) :
    ∃ a b c d e, A = [a, b, c, d, e] := by
  rcases A with _ | ⟨a, A⟩
  · simp at h
  rcases A with _ | ⟨b, A⟩
  · simp at h
  rcases A with _ | ⟨c, A⟩
  · simp at h
  rcases A with _ | ⟨d, A⟩
  · simp at h
  rcases A with _ | ⟨e, A⟩
  · simp at h
  rcases A with _ | ⟨f, A⟩
  · exact ⟨a, b, c, d, e, rfl⟩
  · simp at h

/-- Round trip of the timestamp codec at 0.01-second granularity, within
the five-digit minute field: parsing the formatted text of `k` centiseconds
returns exactly `k / 100` seconds. -/
theorem codec_roundtrip (k : ℕ) (hk : k < 600000000) :
    track_mark_to_seconds (seconds_to_track_marker ((k : ℚ) / 100)) =
      some ((k : ℚ) / 100) := by
  unfold seconds_to_track_marker
  rw [minutes_of_centi k, rem_of_centi k, fracRound2_exact (k % 6000)]
  have hm5 : k / 6000 < 10 ^ 5 := by
    have hpow : (10 : ℕ) ^ 5 = 100000 := by norm_num
    omega
  have hS2 : k % 6000 / 100 < 10 ^ 2 := by
    have hpow : (10 : ℕ) ^ 2 = 100 := by norm_num
    omega
  have ht2 : k % 6000 % 100 < 10 ^ 2 := by
    have hpow : (10 : ℕ) ^ 2 = 100 := by norm_num
    omega
  have hVal5 := digitsVal_padDigits 5 (k / 6000)
  have hValB := digitsVal_padDigits 2 (k % 6000 / 100)
  have hValC := digitsVal_padDigits 2 (k % 6000 % 100)
  have hAll5 := padDigits_all 5 (k / 6000)
  have hAllB := padDigits_all 2 (k % 6000 / 100)
  have hAllC := padDigits_all 2 (k % 6000 % 100)
  obtain ⟨a1, a2, a3, a4, a5, hA⟩ :=
    exists_five _ (padDigits_length 5 (k / 6000) (by omega) hm5)
  obtain ⟨b1, b2, hB⟩ :=
    exists_two _ (padDigits_length 2 (k % 6000 / 100) (by omega) hS2)
  obtain ⟨c1, c2, hC⟩ :=
    exists_two _ (padDigits_length 2 (k % 6000 % 100) (by omega) ht2)
  rw [hA] at hVal5 hAll5
  rw [hB] at hValB hAllB
  rw [hC] at hValC hAllC
  rw [hA, hB, hC]
  have hpf1 : pyFloat [a1, a2, a3, a4, a5] = some (digitsVal [a1, a2, a3, a4, a5]) :=
    pyFloat_digits _ hAll5 (by simp)
  have hpf2 : pyFloat ([b1, b2] ++ '.' :: [c1, c2]) =
      some ((digitsVal [b1, b2] : ℚ) + (digitsVal [c1, c2] : ℚ) / 10 ^ ([c1, c2].length)) :=
    pyFloat_frac [b1, b2] [c1, c2] hAllB hAllC (by simp)
  show (match pyFloat [a1, a2, a3, a4, a5], pyFloat ([b1, b2] ++ '.' :: [c1, c2]) with
    | some m, some s => some (m * 60 + s)
    | _, _ => none) = some ((k : ℚ) / 100)
  rw [hpf1, hpf2]
  show some ((digitsVal [a1, a2, a3, a4, a5] : ℚ) * 60 +
      ((digitsVal [b1, b2] : ℚ) + (digitsVal [c1, c2] : ℚ) / 10 ^ ([c1, c2].length))) =
    some ((k : ℚ) / 100)
  rw [hVal5, hValB, hValC]
  congr 1
  have h1 : 6000 * (k / 6000) + (100 * (k % 6000 / 100) + k % 6000 % 100) = k := by
    omega
  have h1q : 6000 * ((k / 6000 : ℕ) : ℚ) +
      (100 * ((k % 6000 / 100 : ℕ) : ℚ) + ((k % 6000 % 100 : ℕ) : ℚ)) = (k : ℚ) := by
    exact_mod_cast h1
  have hlen : ([c1, c2].length : ℕ) = 2 := rfl
  rw [hlen]
  field_simp
  linarith

/-- Every token that is well-formed per the spec parses, and the value is
the minute field times 60 plus the seconds field.  (The converse fails: the
parser never inspects the brackets or the colon, see
`C9_malformed_token_parses`.) -/
theorem parse_wellFormed (s : String) (hwf : wellFormedTrackMark s = true) :
    track_mark_to_seconds s = some (tokenValue s) := by
  unfold wellFormedTrackMark at hwf
  split at hwf
  next a b c d e f g h1 i heq =>
    simp only [Bool.and_eq_true] at hwf
    obtain ⟨⟨⟨⟨⟨⟨⟨⟨ha, hb⟩, hc⟩, hd⟩, he⟩, hf⟩, hg⟩, hh⟩, hi⟩ := hwf
    have hAll5 : ([a, b, c, d, e]).all Char.isDigit = true := by
      simp [List.all_cons, ha, hb, hc, hd, he]
    have hAllB : ([f, g]).all Char.isDigit = true := by
      simp [List.all_cons, hf, hg]
    have hAllC : ([h1, i]).all Char.isDigit = true := by
      simp [List.all_cons, hh, hi]
    have hpf1 := pyFloat_digits [a, b, c, d, e] hAll5 (by simp)
    have hpf2 := pyFloat_frac [f, g] [h1, i] hAllB hAllC (by simp)
    unfold track_mark_to_seconds tokenValue
    rw [heq]
    show (match pyFloat [a, b, c, d, e], pyFloat ([f, g] ++ '.' :: [h1, i]) with
      | some m, some s2 => some (m * 60 + s2)
      | _, _ => none) =
      some ((digitsVal [a, b, c, d, e] : ℚ) * 60 +
        ((digitsVal [f, g] : ℚ) + (digitsVal [h1, i] : ℚ) / 100))
    rw [hpf1, hpf2]
    show some ((digitsVal [a, b, c, d, e] : ℚ) * 60 +
        ((digitsVal [f, g] : ℚ) + (digitsVal [h1, i] : ℚ) / 10 ^ ([h1, i].length))) =
      some ((digitsVal [a, b, c, d, e] : ℚ) * 60 +
        ((digitsVal [f, g] : ℚ) + (digitsVal [h1, i] : ℚ) / 100))
    norm_num
  next =>
    simp at hwf

/-- The final `total_time` of the `concatenate_track_marker_files` loop is
the initial value plus the sum of all the pairs' mp3 durations — each
pair's duration is added whether its marker source is real or a
placeholder. -/
theorem concatLoop_total :
    ∀ (pairs : List (ℚ × TmkSource)) (t : ℚ) (ff : Bool) (out : List String) (t2 : ℚ),
      concatLoop pairs t ff = some (out, t2) →
      t2 = t + (pairs.map Prod.fst).sum := by
  intro pairs
  induction pairs with
  | nil =>
    intro t ff out t2 h
    rw [concatLoop] at h
    cases h
    simp
  | cons p rest ih =>
    rcases p with ⟨dur, src⟩
    intro t ff out t2 h
    cases src with
    | placeholder =>
      rw [concatLoop] at h
      have htot := ih (t + dur) false out t2 h
      simp only [List.map_cons, List.sum_cons]
      linarith
    | real lines =>
      rw [concatLoop] at h
      cases ff with
      | true =>
        rw [if_pos rfl] at h
        cases hc : concatLoop rest (t + dur) false with
        | none => rw [hc] at h; cases h
        | some pr =>
          rcases pr with ⟨out2, t3⟩
          rw [hc] at h
          cases h
          have htot := ih (t + dur) false out2 t2 hc
          simp only [List.map_cons, List.sum_cons]
          linarith
      | false =>
        rw [if_neg (by simp)] at h
        cases hs : shiftLines t lines with
        | none => rw [hs] at h; cases h
        | some shifted =>
          rw [hs] at h
          cases hc : concatLoop rest (t + dur) false with
          | none => rw [hc] at h; cases h
          | some pr =>
            rcases pr with ⟨out2, t3⟩
            rw [hc] at h
            cases h
            have htot := ih (t + dur) false out2 t2 hc
            simp only [List.map_cons, List.sum_cons]
            linarith

/-- The inner walk of the aligner emits exactly one entry per audio segment
it consumes, and consumes no more segments than remain. -/
theorem alignWalk_spec (tb : ℚ) :
    ∀ (mp3s : List (ℚ × ℚ)),
      (alignWalk tb mp3s).1.length = (alignWalk tb mp3s).2 ∧
      (alignWalk tb mp3s).2 ≤ mp3s.length := by
  intro mp3s
  induction mp3s with
  | nil => simp [alignWalk]
  | cons p rest ih =>
    rcases p with ⟨b, d⟩
    rw [alignWalk]
    rcases halign : alignWalk tb rest with ⟨es, n⟩
    rw [halign] at ih
    by_cases hc : b + d < tb
    · rw [if_pos hc]
      have ih1 : es.length = n := ih.1
      have ih2 : n ≤ rest.length := ih.2
      constructor
      · show (TmkEntry.placeholder :: es).length = n + 1
        simp only [List.length_cons]
        omega
      · show n + 1 ≤ ((b, d) :: rest).length
        simp only [List.length_cons]
        omega
    · rw [if_neg hc]
      simp

/-- Each marker file contributes one entry per audio segment its walk
consumes; in total the aligned list can never be longer than the remaining
audio-segment list. -/
theorem insert_placeholder_length (mp3s : List (ℚ × ℚ)) :
    ∀ (tmks : List ℚ) (index : ℕ),
      (insert_placeholder_files mp3s tmks index).length ≤ mp3s.length - index := by
  intro tmks
  induction tmks with
  | nil =>
    intro index
    simp [insert_placeholder_files]
  | cons tb rest ih =>
    intro index
    rw [insert_placeholder_files]
    rcases halign : alignWalk tb (mp3s.drop index) with ⟨es, n⟩
    have hspec := alignWalk_spec tb (mp3s.drop index)
    rw [halign] at hspec
    simp only [List.length_drop] at hspec
    have hrec := ih (index + n)
    simp only [List.length_append]
    omega

/-! ### Claim theorems -/

/-- C1: for every marker sequence whose offsets strictly increase, in the
list of TimeIntervals returned by `find_track_mark_patterns` (when
resolution completes), every interval's start is at least the end of the
immediately preceding interval in that list — no overlap, for all five
pattern kinds. -/
theorem C1_intervals_never_overlap (track_marks : List ℚ) (maxTimeInterval : ℚ)
    (l : List TimeInterval) (hsorted : track_marks.Chain' (· < ·))
    (hres : find_track_mark_patterns track_marks maxTimeInterval = .ok l) :
    l.Chain' (fun a b => a.stop ≤ b.start) := by
  have hpw : track_marks.Pairwise (· < ·) := List.chain'_iff_pairwise.mp hsorted
  unfold find_track_mark_patterns at hres
  cases hw : get_windows track_marks maxTimeInterval with
  | none => rw [hw] at hres; cases hres
  | some ws =>
    rw [hw] at hres
    exact (resolveLoop_no_overlap track_marks hpw ws 0 l hres).1

/-- Witness for C1 at the marks `[0, 10, 20, 200]` with threshold 30. -/
theorem C1_intervals_never_overlap_witness :
    List.Chain' (fun a b => a.stop ≤ b.start)
      ([⟨20, 200, Pattern.IMPORTANT_CONVERSATION⟩] : List TimeInterval) :=
  C1_intervals_never_overlap [0, 10, 20, 200] 30 _
    (by simp only [List.chain'_cons, List.chain'_singleton, and_true]; norm_num)
    (by with_unfolding_all rfl)

/-- C2 (counterexample): a CONVERSATION run flushed at end of stream without
its terminating mark — marks `[0, 10, 20]`, threshold 30 — makes
`find_track_mark_patterns` fail with `IndexError` (`track_marks[index + 3]`
is out of range), not succeed and not raise the defensive `PatternError`. -/
theorem C2_flushed_conversation_raises_indexError :
    find_track_mark_patterns [0, 10, 20] 30 = .error .indexError := by
  with_unfolding_all rfl

/-- C2 (amended): for every marker sequence and nonnegative gap threshold,
`find_track_mark_patterns` either succeeds or fails with an index error on a
mark subscript (a span window flushed at end of stream without its
terminating mark); the defensive invalid-arity branch (`PatternError`) and
the classifier's own `ValueError` are unreachable. -/
theorem C2_resolution_ok_or_indexError (track_marks : List ℚ) (maxTimeInterval : ℚ)
    (hG : 0 ≤ maxTimeInterval) :
    (∃ l, find_track_mark_patterns track_marks maxTimeInterval = .ok l) ∨
      find_track_mark_patterns track_marks maxTimeInterval = .error .indexError := by
  rcases get_windows_eq_some track_marks maxTimeInterval hG with ⟨ws, hws⟩
  unfold find_track_mark_patterns
  rw [hws]
  exact resolveLoop_ok_or_indexError track_marks ws 0

/-- Witness for C2 (amended) at the marks `[0, 10, 20]`, threshold 30. -/
theorem C2_resolution_ok_or_indexError_witness :
    (∃ l, find_track_mark_patterns [0, 10, 20] 30 = .ok l) ∨
      find_track_mark_patterns [0, 10, 20] 30 = .error .indexError :=
  C2_resolution_ok_or_indexError [0, 10, 20] 30 (by norm_num)

/-- C3: on marks `[0, 10, 20, 200]` with threshold 30 the classifier emits
exactly one CONVERSATION window (arity 3) without rewinding the cursor at
the boundary, and the resolver emits exactly one interval from the third
mark (20) to the boundary mark's own offset (200). -/
theorem C3_conversation_no_rewind_example :
    get_windows [0, 10, 20, 200] 30 = some [Pattern.IMPORTANT_CONVERSATION] ∧
    find_track_mark_patterns [0, 10, 20, 200] 30 =
      .ok [⟨20, 200, Pattern.IMPORTANT_CONVERSATION⟩] := by
  constructor
  · with_unfolding_all rfl
  · with_unfolding_all rfl

/-- C4: on marks `[10, 11, 12, 13, 500, 600]` with threshold 30 the
resolution yields first a CONFIDENTIAL interval `[13, 500]` and then a
SHORT_NOTE (arity-1) interval whose start, 540, is at least 500 — the
`minimum` clamp keeps the 60-second lookback out of the confidential
span. -/
theorem C4_confidential_clamp_example :
    find_track_mark_patterns [10, 11, 12, 13, 500, 600] 30 =
      .ok [⟨13, 500, Pattern.CONFIDENTIAL⟩, ⟨540, 600, Pattern.IMPORTANT_THOUGHT⟩] ∧
    (500 : ℚ) ≤ 540 := by
  constructor
  · with_unfolding_all rfl
  · norm_num

/-- C5: for every offset representable at 0.01-second granularity within the
five-digit minute field (`k` centiseconds, `k < 600000000`), parsing the
formatted text returns exactly that offset. -/
theorem C5_codec_roundtrip (k : ℕ) (hk : k < 600000000) :
    track_mark_to_seconds (seconds_to_track_marker ((k : ℚ) / 100)) =
      some ((k : ℚ) / 100) :=
  codec_roundtrip k hk

/-- Witness for C5 at `k = 12345` centiseconds (123.45 s). -/
theorem C5_codec_roundtrip_witness :
    track_mark_to_seconds (seconds_to_track_marker ((12345 : ℚ) / 100)) =
      some ((12345 : ℚ) / 100) :=
  C5_codec_roundtrip 12345 (by decide)

/-- C6: merging a record of two segments of durations 100 s and 50 s, a
mark at offset 5 in the second segment's source appears in the merged
sequence as the rendering of offset 105 (and parses back to 105); the first
segment's marks are written verbatim; and in general each pair's duration is
added to the running total after the pair is processed, whether its source
is real or a placeholder. -/
theorem C6_offset_accumulation :
    concatenate_track_marker_files
      [(100, .real ["[00000:10.00]"]), (50, .real ["[00000:05.00]"])] =
      some ["[00000:10.00]", seconds_to_track_marker 105] ∧
    track_mark_to_seconds (seconds_to_track_marker 105) = some 105 ∧
    ∀ (pairs : List (ℚ × TmkSource)) (t : ℚ) (ff : Bool) (out : List String) (t2 : ℚ),
      concatLoop pairs t ff = some (out, t2) →
      t2 = t + (pairs.map Prod.fst).sum := by
  refine ⟨?_, ?_, concatLoop_total⟩
  · with_unfolding_all rfl
  · with_unfolding_all rfl

/-- Witness for the universally quantified part of C6, at a single
placeholder pair of duration 100. -/
theorem C6_offset_accumulation_witness :
    (100 : ℚ) = 0 + (([((100 : ℚ), TmkSource.placeholder)]).map Prod.fst).sum :=
  C6_offset_accumulation.2.2 [((100 : ℚ), TmkSource.placeholder)] 0 true [] 100
    (by with_unfolding_all rfl)

/-- C7 (counterexample): a group with two audio segments and one marker
file whose walk stops at the first segment — segments (birth 0, duration
100) and (birth 100, duration 50), marker file born at 50 — yields an
alignment list of length 1, not one entry per audio segment. -/
theorem C7_alignment_shorter_counterexample :
    (insert_placeholder_files [(0, 100), (100, 50)] [50] 0).length ≠
      ([(0, 100), (100, 50)] : List (ℚ × ℚ)).length := by
  with_unfolding_all decide

/-- C7 (amended): the Segment Aligner returns one marker-file-or-placeholder
entry per audio segment its walk consumes, so the list is never longer than
the audio-segment list — but when the group has more audio segments than
marker files the trailing unconsumed segments get no entry and the list can
be strictly shorter. -/
theorem C7_alignment_length_le (mp3_files : List (ℚ × ℚ)) (tmk_files : List ℚ) :
    (insert_placeholder_files mp3_files tmk_files 0).length ≤ mp3_files.length := by
  have h := insert_placeholder_length mp3_files tmk_files 0
  omega

/-- C8: `read_track_markers` does NOT skip a trailing blank line — it
returns the stripped blank line (`""`) as a marker entry, and that entry
does not parse (`float('')` raises), so classification on such a file fails
rather than behaving as if the blank line were absent. -/
theorem C8_trailing_blank_not_skipped :
    read_track_markers ["[00001:00.00]", ""] = ["[00001:00.00]", ""] ∧
    track_mark_to_seconds "" = none := by
  constructor
  · rfl
  · rfl

/-- C9 (counterexample): the parser accepts the malformed token
`"(00001:00.00)"` — wrong brackets, hence not well-formed per the spec —
returning 60.0, because it only ever reads the two numeric slices and never
checks the brackets or the colon. -/
theorem C9_malformed_token_parses :
    track_mark_to_seconds "(00001:00.00)" = some 60 ∧
    wellFormedTrackMark "(00001:00.00)" = false := by
  constructor
  · with_unfolding_all rfl
  · rfl

/-- C9 (amended): every token that is well-formed per the spec's fixed-width
bracketed format parses to its minute field times 60 plus its seconds field;
but parsing fails exactly when one of the two numeric slices fails to parse,
not exactly on malformed tokens — some malformed tokens parse too. -/
theorem C9_wellformed_token_parses (s : String) (h : wellFormedTrackMark s = true) :
    track_mark_to_seconds s = some (tokenValue s) :=
  parse_wellFormed s h

/-- Witness for C9 (amended) at the token `"[00001:00.00]"`. -/
theorem C9_wellformed_token_parses_witness :
    track_mark_to_seconds "[00001:00.00]" = some (tokenValue "[00001:00.00]") :=
  C9_wellformed_token_parses "[00001:00.00]" (by decide)

/-- C10: the `get_windows` loop terminates on every finite marker list and
every gap threshold: started from its initial state it finishes within
`3 * length + 2` iterations (the rewinding boundary also resets the run
counter, so `3 * (marks remaining) + 2 * counter` strictly decreases). -/
theorem C10_classifier_terminates (track_marks : List ℚ) (interval : ℚ) (fuel : ℕ)
    (hfuel : 3 * track_marks.length + 2 ≤ fuel) :
    getWindowsLoop track_marks interval fuel 0 0 0 true [] ≠ .fuelOut :=
  getWindowsLoop_ne_fuelOut track_marks interval fuel 0 0 0 true [] (by omega)

/-- Witness for C10 at the empty marker list with threshold 30 and the
minimal budget 2. -/
theorem C10_classifier_terminates_witness :
    getWindowsLoop [] 30 2 0 0 0 true [] ≠ .fuelOut :=
  C10_classifier_terminates [] 30 2 (by decide)

end MP3Journaling
